import Mathlib

/-!
Shallow embedding of the duplex-sponge core in
`src/gadgets/traits/sponge.rs` (crate `zk-frontend`).

The Rust code is generic over a circuit `C`; rate and capacity slots hold
circuit signals of an abstract type.  We embed the signal type as an
arbitrary type `F`, the externally supplied permutation as a function on
the full state (rate slots plus capacity), the tag hasher as a function
`List Nat → F`, and the serialized domain separator as a `List Nat`.
Machine integers (`u32`) are embedded as `Nat` with an explicit `% 2^32`
at the operations where u32 arithmetic can overflow or truncate:
the `as u32` casts in `absorb`/`squeeze` and the wrapping `+=` in the
log-compression fold of `finalize`.  The state carries one piece of
instrumentation, a `permCount` field counting invocations of the
permutation; nothing else is added to the source semantics.
-/

namespace ZkSponge

/-- `SpongeAction`: one entry of the action log, a direction plus a batch
count (`u32` in the source, embedded as `Nat`). -/
inductive SpongeAction where
  | Absorb (v : Nat)
  | Squeeze (v : Nat)
deriving DecidableEq

/-- `SpongeAction::serialize`: `Absorb(v)` is `1 << 31 ^ v` (u32 xor with
the top bit), `Squeeze(v)` is `v` unchanged. -/
def SpongeAction.serialize : SpongeAction → Nat
  | .Absorb v => 1 <<< 31 ^^^ v
  | .Squeeze v => v

/-- One step of the fold in `finalize` that run-length-compresses the log:
if the accumulator ends in an entry of the same direction as `n`, the counts
are summed in place (`*last += next` on u32, hence `% 2^32`); otherwise `n`
is pushed. -/
def compressStep (acc : List SpongeAction) (n : SpongeAction) : List SpongeAction :=
  match acc.getLast? with
  | none => acc ++ [n]
  | some last =>
    match last, n with
    | .Absorb a, .Absorb b => acc.dropLast ++ [.Absorb ((a + b) % 2^32)]
    | .Absorb _, .Squeeze _ => acc ++ [n]
    | .Squeeze _, .Absorb _ => acc ++ [n]
    | .Squeeze a, .Squeeze b => acc.dropLast ++ [.Squeeze ((a + b) % 2^32)]

/-- The whole run-length-compression fold of `finalize`
(`self.get_log().iter().fold(vec![], ...)`). -/
def compress (log : List SpongeAction) : List SpongeAction :=
  log.foldl compressStep []

/-- The sponge state behind `TSpongePrivate`: the rate width, the two
cursors, the action log, the rate slots (`read_rate_element` /
`add_rate_element` are exposed for arbitrary offsets, so slots are a total
function), the capacity region (one tag-sized cell, written by
`initialize_capacity`), and the instrumentation counter of `permute`
invocations. -/
structure Sponge (F : Type) where
  rate : Nat
  absorb_pos : Nat
  squeeze_pos : Nat
  log : List SpongeAction
  rateSlots : Nat → F
  capacity : F
  permCount : Nat

section Ops

variable {F : Type}
variable (perm : (Nat → F) → F → (Nat → F) × F)
variable (tagH : List Nat → F) (domSep : List Nat)

/-- `permute`: apply the external permutation in place to the full state
(rate slots and capacity); `permCount` records the invocation. -/
def permute (s : Sponge F) : Sponge F :=
  { s with
    rateSlots := (perm s.rateSlots s.capacity).1
    capacity := (perm s.rateSlots s.capacity).2
    permCount := s.permCount + 1 }

/-- `add_rate_element`: write `value` into rate slot `offset`. -/
def add_rate_element (s : Sponge F) (offset : Nat) (value : F) : Sponge F :=
  { s with rateSlots := fun i => if i = offset then value else s.rateSlots i }

/-- `read_rate_element`: read rate slot `offset`. -/
def read_rate_element (s : Sponge F) (offset : Nat) : F :=
  s.rateSlots offset

/-- `add_log`: append one action to the log (the log is append-only). -/
def add_log (s : Sponge F) (action : SpongeAction) : Sponge F :=
  { s with log := s.log ++ [action] }

/-- `TSpongePrivate::absorb_one`: permute and reset `absorb_pos` when the
rate is full, write the input at `absorb_pos`, advance `absorb_pos`, and
force `squeeze_pos` to `rate`. -/
def absorb_one (s : Sponge F) (input : F) : Sponge F :=
  let s1 := if s.absorb_pos = s.rate then { permute perm s with absorb_pos := 0 } else s
  let s2 := add_rate_element s1 s1.absorb_pos input
  let s3 := { s2 with absorb_pos := s2.absorb_pos + 1 }
  { s3 with squeeze_pos := s3.rate }

/-- `TSpongePrivate::squeeze_one`: permute and reset both cursors when
`squeeze_pos` reaches `rate`, read the slot at `squeeze_pos`, advance
`squeeze_pos`; returns the read value together with the new state. -/
def squeeze_one (s : Sponge F) : F × Sponge F :=
  let s1 := if s.squeeze_pos = s.rate
    then { permute perm s with absorb_pos := 0, squeeze_pos := 0 }
    else s
  (read_rate_element s1 s1.squeeze_pos, { s1 with squeeze_pos := s1.squeeze_pos + 1 })

/-- `TSpongePrivate::finalize`: run-length-compress the log, serialize the
compressed entries, append the serialized domain separator, hash the result
with the tag hasher and write it into the capacity. -/
def finalize (s : Sponge F) : Sponge F :=
  { s with capacity := tagH ((compress s.log).map SpongeAction.serialize ++ domSep) }

/-- `TSponge::absorb` (façade): early-return on an empty batch; otherwise
log one `Absorb` entry carrying the batch length (`inputs.len() as u32`,
hence `% 2^32`) and absorb the elements one by one in order. -/
def absorb (s : Sponge F) (inputs : List F) : Sponge F :=
  if inputs.length = 0 then s
  else inputs.foldl (absorb_one perm) (add_log s (.Absorb (inputs.length % 2^32)))

/-- `length` successive `squeeze_one` calls, collecting the outputs in call
order (the `(0..length).map(...)` of the source). -/
def squeezeMany (s : Sponge F) : Nat → List F × Sponge F
  | 0 => ([], s)
  | n + 1 =>
    let r := squeeze_one perm s
    let rest := squeezeMany r.2 n
    (r.1 :: rest.1, rest.2)

/-- `TSponge::squeeze` (façade): early-return on length 0; otherwise log
one `Squeeze` entry carrying the requested length (`length as u32`, hence
`% 2^32`) and squeeze the elements one by one. -/
def squeeze (s : Sponge F) (length : Nat) : List F × Sponge F :=
  if length = 0 then ([], s)
  else squeezeMany perm (add_log s (.Squeeze (length % 2^32))) length

/-- A public façade call: batch absorb, batch squeeze, or finalize. -/
inductive SpongeOp (F : Type) where
  | absorbOp (inputs : List F)
  | squeezeOp (length : Nat)
  | finalizeOp

/-- Execute one public call on the state. -/
def runOp (s : Sponge F) : SpongeOp F → Sponge F
  | .absorbOp inputs => absorb perm s inputs
  | .squeezeOp n => (squeeze perm s n).2
  | .finalizeOp => finalize tagH domSep s

/-- Execute a sequence of public calls. -/
def run (s : Sponge F) (ops : List (SpongeOp F)) : Sponge F :=
  ops.foldl (runOp perm tagH domSep) s

/-- Iterated façade `absorb` calls (used to state the split-absorb claim). -/
def absorbCalls (s : Sponge F) (parts : List (List F)) : Sponge F :=
  parts.foldl (absorb perm) s

end Ops

/-- A fresh sponge as produced by `new`: cursors at 0, log empty, slots and
capacity at an initial value. -/
def mkSponge {F : Type} (rate : Nat) (init : F) : Sponge F :=
  { rate := rate, absorb_pos := 0, squeeze_pos := 0, log := []
    rateSlots := fun _ => init, capacity := init, permCount := 0 }

/-- A sponge with `rate = 2`, both cursors at 0, an empty log and arbitrary
slot and capacity contents (the start state of the rate-2 scenario). -/
def rateTwoStart {F : Type} (slots : Nat → F) (c0 : F) : Sponge F :=
  { rate := 2, absorb_pos := 0, squeeze_pos := 0, log := []
    rateSlots := slots, capacity := c0, permCount := 0 }

/-- Decoder described by the specification round-trip property: the top bit
of the 32-bit word gives the direction, the low 31 bits the magnitude. -/
def decodeEntry (w : Nat) : SpongeAction :=
  if w.testBit 31 then .Absorb (w % 2^31) else .Squeeze (w % 2^31)

section Lemmas

variable {F : Type}
variable (perm : (Nat → F) → F → (Nat → F) × F)
variable (tagH : List Nat → F) (domSep : List Nat)

/-- Replace the log of a state. -/
def setLog (s : Sponge F) (l : List SpongeAction) : Sponge F :=
  { s with log := l }

/-- Erase the log of a state (to compare the non-log components). -/
def eraseLog (s : Sponge F) : Sponge F :=
  setLog s []

lemma setLog_self (s : Sponge F) : setLog s s.log = s := rfl

lemma absorb_one_setLog (s : Sponge F) (l : List SpongeAction) (x : F) :
    absorb_one perm (setLog s l) x = setLog (absorb_one perm s x) l := by
  simp only [absorb_one, setLog, permute, add_rate_element]
  split <;> rfl

lemma foldl_absorb_one_setLog (inputs : List F) (s : Sponge F) (l : List SpongeAction) :
    inputs.foldl (absorb_one perm) (setLog s l) = setLog (inputs.foldl (absorb_one perm) s) l := by
  induction inputs generalizing s with
  | nil => rfl
  | cons x xs ih => rw [List.foldl_cons, List.foldl_cons, absorb_one_setLog, ih]

lemma squeeze_one_setLog (s : Sponge F) (l : List SpongeAction) :
    squeeze_one perm (setLog s l)
      = ((squeeze_one perm s).1, setLog (squeeze_one perm s).2 l) := by
  simp only [squeeze_one, setLog, permute, read_rate_element]
  split <;> rfl

lemma squeezeMany_setLog (n : Nat) (s : Sponge F) (l : List SpongeAction) :
    squeezeMany perm (setLog s l) n
      = ((squeezeMany perm s n).1, setLog (squeezeMany perm s n).2 l) := by
  induction n generalizing s with
  | zero => rfl
  | succ k ih =>
    simp only [squeezeMany, squeeze_one_setLog, ih]

/-- The single log entry the façade `absorb` produces for a batch. -/
def logEntryFor (inputs : List F) : List SpongeAction :=
  if inputs.length = 0 then [] else [.Absorb (inputs.length % 2^32)]

lemma absorb_eq_setLog (s : Sponge F) (inputs : List F) :
    absorb perm s inputs
      = setLog (inputs.foldl (absorb_one perm) s) (s.log ++ logEntryFor inputs) := by
  by_cases h : inputs.length = 0
  · have : inputs = [] := List.length_eq_zero.mp h
    subst this
    simp [absorb, logEntryFor, setLog_self]
  · have hadd : add_log s (.Absorb (inputs.length % 2^32))
        = setLog s (s.log ++ [.Absorb (inputs.length % 2^32)]) := rfl
    simp only [absorb, h, if_neg h, logEntryFor]
    rw [hadd, foldl_absorb_one_setLog]
    simp [h]

lemma squeeze_eq_of_pos (s : Sponge F) (n : Nat) (h : n ≠ 0) :
    squeeze perm s n
      = ((squeezeMany perm s n).1,
         setLog (squeezeMany perm s n).2 (s.log ++ [.Squeeze (n % 2^32)])) := by
  have hadd : add_log s (.Squeeze (n % 2^32))
      = setLog s (s.log ++ [.Squeeze (n % 2^32)]) := rfl
  show (if n = 0 then (([] : List F), s) else _) = _
  rw [if_neg h, hadd, squeezeMany_setLog]

lemma squeezeMany_length (n : Nat) (s : Sponge F) :
    (squeezeMany perm s n).1.length = n := by
  induction n generalizing s with
  | zero => rfl
  | succ k ih =>
    simp only [squeezeMany, List.length_cons, ih]

/-- The log entries produced by a sequence of façade absorb calls. -/
def absorbEntries (parts : List (List F)) : List SpongeAction :=
  (parts.map logEntryFor).flatten

lemma compress_append (L X : List SpongeAction) :
    compress (L ++ X) = X.foldl compressStep (compress L) := by
  simp [compress, List.foldl_append]

lemma compressStep_absorb_absorb (A : List SpongeAction) (u w : Nat) :
    compressStep (compressStep A (.Absorb u)) (.Absorb w)
      = compressStep A (.Absorb ((u + w) % 2^32)) := by
  rcases A.eq_nil_or_concat with rfl | ⟨B, last, rfl⟩
  · show compressStep [SpongeAction.Absorb u] (.Absorb w) = [SpongeAction.Absorb ((u + w) % 2^32)]
    simp only [compressStep, List.getLast?_concat]
    norm_num
  · rw [List.concat_eq_append]
    cases last with
    | Absorb x =>
      simp only [compressStep, List.getLast?_concat, List.dropLast_concat]
      have h : ((x + u) % 2^32 + w) % 2^32 = (x + (u + w) % 2^32) % 2^32 := by omega
      rw [h]
    | Squeeze x =>
      simp only [compressStep, List.getLast?_concat, List.dropLast_concat]

lemma foldl_compressStep_absorbEntries (parts : List (List F)) (A : List SpongeAction) :
    (absorbEntries (F := F) parts).foldl compressStep A
      = (logEntryFor (F := F) parts.flatten).foldl compressStep A := by
  induction parts generalizing A with
  | nil => rfl
  | cons p tl ih =>
    simp only [absorbEntries, List.map_cons, List.flatten_cons, List.foldl_append]
    rw [show ((tl.map (logEntryFor (F := F))).flatten.foldl compressStep
          ((logEntryFor (F := F) p).foldl compressStep A))
        = (absorbEntries (F := F) tl).foldl compressStep
          ((logEntryFor (F := F) p).foldl compressStep A) from rfl]
    rw [ih]
    by_cases hp : p.length = 0
    · simp [logEntryFor, hp, List.length_eq_zero.mp hp]
    · by_cases ht : tl.flatten.length = 0
      · simp only [logEntryFor, if_neg hp, List.length_append, ht]
        simp [hp]
      · have hpt : (p ++ tl.flatten).length ≠ 0 := by
          simp only [List.length_append]
          omega
        simp only [logEntryFor, if_neg hp, if_neg ht, if_neg hpt,
          List.foldl_cons, List.foldl_nil]
        rw [compressStep_absorb_absorb]
        have h : (p.length % 2^32 + tl.flatten.length % 2^32) % 2^32
            = (p ++ tl.flatten).length % 2^32 := by
          simp only [List.length_append]
          omega
        rw [h]

lemma absorbCalls_eq_setLog (parts : List (List F)) (s : Sponge F) :
    absorbCalls perm s parts
      = setLog (parts.flatten.foldl (absorb_one perm) s) (s.log ++ absorbEntries parts) := by
  induction parts generalizing s with
  | nil => simp [absorbCalls, absorbEntries, setLog_self]
  | cons p tl ih =>
    show absorbCalls perm (absorb perm s p) tl = _
    rw [ih, absorb_eq_setLog, foldl_absorb_one_setLog]
    simp only [setLog, absorbEntries, List.map_cons, List.flatten_cons, List.foldl_append]
    simp [List.append_assoc]

lemma compress_absorbCalls_log (s : Sponge F) (parts : List (List F)) :
    compress (absorbCalls perm s parts).log = compress (absorb perm s parts.flatten).log := by
  rw [absorbCalls_eq_setLog, absorb_eq_setLog]
  show compress (s.log ++ absorbEntries parts) = compress (s.log ++ logEntryFor parts.flatten)
  rw [compress_append, compress_append, foldl_compressStep_absorbEntries]

lemma absorb_one_rate (s : Sponge F) (x : F) : (absorb_one perm s x).rate = s.rate := by
  simp only [absorb_one, permute, add_rate_element]
  split <;> rfl

lemma squeeze_one_rate (s : Sponge F) : (squeeze_one perm s).2.rate = s.rate := by
  simp only [squeeze_one, permute, read_rate_element]
  split <;> rfl

lemma foldl_absorb_one_rate (inputs : List F) (s : Sponge F) :
    (inputs.foldl (absorb_one perm) s).rate = s.rate := by
  induction inputs generalizing s with
  | nil => rfl
  | cons x xs ih => rw [List.foldl_cons, ih, absorb_one_rate]

lemma squeezeMany_rate (n : Nat) (s : Sponge F) :
    (squeezeMany perm s n).2.rate = s.rate := by
  induction n generalizing s with
  | zero => rfl
  | succ k ih =>
    show (squeezeMany perm (squeeze_one perm s).2 k).2.rate = s.rate
    rw [ih, squeeze_one_rate]

lemma absorb_rate (s : Sponge F) (inputs : List F) : (absorb perm s inputs).rate = s.rate := by
  rw [absorb_eq_setLog]
  show (inputs.foldl (absorb_one perm) s).rate = s.rate
  exact foldl_absorb_one_rate perm inputs s

lemma squeeze_rate (s : Sponge F) (n : Nat) : (squeeze perm s n).2.rate = s.rate := by
  by_cases h : n = 0
  · subst h; rfl
  · show (if n = 0 then (([] : List F), s) else _).2.rate = s.rate
    rw [if_neg h]
    rw [squeezeMany_rate]
    rfl

lemma absorb_one_squeeze_pos (s : Sponge F) (x : F) :
    (absorb_one perm s x).squeeze_pos = s.rate := by
  simp only [absorb_one, permute, add_rate_element]
  split <;> rfl

lemma absorb_one_absorb_pos_le (s : Sponge F) (x : F) (hr : 0 < s.rate)
    (ha : s.absorb_pos ≤ s.rate) :
    (absorb_one perm s x).absorb_pos ≤ (absorb_one perm s x).rate := by
  rw [absorb_one_rate]
  by_cases h : s.absorb_pos = s.rate
  · simp only [absorb_one, permute, add_rate_element, if_pos h]
    omega
  · simp only [absorb_one, permute, add_rate_element, if_neg h]
    omega

lemma squeeze_one_cursors (s : Sponge F) (hr : 0 < s.rate)
    (ha : s.absorb_pos ≤ s.rate) (hq : s.squeeze_pos ≤ s.rate) :
    (squeeze_one perm s).2.absorb_pos ≤ (squeeze_one perm s).2.rate
      ∧ (squeeze_one perm s).2.squeeze_pos ≤ (squeeze_one perm s).2.rate := by
  rw [squeeze_one_rate]
  by_cases h : s.squeeze_pos = s.rate
  · simp only [squeeze_one, permute, read_rate_element, if_pos h]
    refine ⟨?_, ?_⟩ <;> dsimp only <;> omega
  · simp only [squeeze_one, permute, read_rate_element, if_neg h]
    refine ⟨?_, ?_⟩ <;> dsimp only <;> omega

lemma squeeze_one_permCount_of_full (s : Sponge F) (h : s.squeeze_pos = s.rate) :
    (squeeze_one perm s).2.permCount = s.permCount + 1 := by
  simp only [squeeze_one, permute, read_rate_element, if_pos h]

/-- The cursor bounds invariant of the spec. -/
def cursorsOk (s : Sponge F) : Prop :=
  s.absorb_pos ≤ s.rate ∧ s.squeeze_pos ≤ s.rate

lemma absorb_one_cursorsOk (s : Sponge F) (x : F) (hr : 0 < s.rate)
    (h : cursorsOk s) : cursorsOk (absorb_one perm s x) := by
  refine ⟨absorb_one_absorb_pos_le perm s x hr h.1, ?_⟩
  rw [absorb_one_squeeze_pos, absorb_one_rate]

lemma squeeze_one_cursorsOk (s : Sponge F) (hr : 0 < s.rate)
    (h : cursorsOk s) : cursorsOk (squeeze_one perm s).2 :=
  squeeze_one_cursors perm s hr h.1 h.2

lemma foldl_absorb_one_cursorsOk (inputs : List F) (s : Sponge F) (hr : 0 < s.rate)
    (h : cursorsOk s) : cursorsOk (inputs.foldl (absorb_one perm) s) := by
  induction inputs generalizing s with
  | nil => exact h
  | cons x xs ih =>
    rw [List.foldl_cons]
    exact ih _ (by rw [absorb_one_rate]; exact hr) (absorb_one_cursorsOk perm s x hr h)

lemma squeezeMany_cursorsOk (n : Nat) (s : Sponge F) (hr : 0 < s.rate)
    (h : cursorsOk s) : cursorsOk (squeezeMany perm s n).2 := by
  induction n generalizing s with
  | zero => exact h
  | succ k ih =>
    show cursorsOk (squeezeMany perm (squeeze_one perm s).2 k).2
    exact ih _ (by rw [squeeze_one_rate]; exact hr) (squeeze_one_cursorsOk perm s hr h)

lemma absorb_cursorsOk (s : Sponge F) (inputs : List F) (hr : 0 < s.rate)
    (h : cursorsOk s) : cursorsOk (absorb perm s inputs) := by
  rw [absorb_eq_setLog]
  exact foldl_absorb_one_cursorsOk perm inputs s hr h

lemma squeeze_cursorsOk (s : Sponge F) (n : Nat) (hr : 0 < s.rate)
    (h : cursorsOk s) : cursorsOk (squeeze perm s n).2 := by
  by_cases hn : n = 0
  · subst hn; exact h
  · show cursorsOk (if n = 0 then (([] : List F), s) else _).2
    rw [if_neg hn]
    exact squeezeMany_cursorsOk perm n _ hr h

lemma runOp_cursorsOk (s : Sponge F) (op : SpongeOp F) (hr : 0 < s.rate)
    (h : cursorsOk s) : cursorsOk (runOp perm tagH domSep s op) := by
  cases op with
  | absorbOp inputs => exact absorb_cursorsOk perm s inputs hr h
  | squeezeOp n => exact squeeze_cursorsOk perm s n hr h
  | finalizeOp => exact h

lemma runOp_rate (s : Sponge F) (op : SpongeOp F) :
    (runOp perm tagH domSep s op).rate = s.rate := by
  cases op with
  | absorbOp inputs => exact absorb_rate perm s inputs
  | squeezeOp n => exact squeeze_rate perm s n
  | finalizeOp => rfl

lemma run_cursorsOk (ops : List (SpongeOp F)) (s : Sponge F) (hr : 0 < s.rate)
    (h : cursorsOk s) : cursorsOk (run perm tagH domSep s ops) := by
  induction ops generalizing s with
  | nil => exact h
  | cons op tl ih =>
    show cursorsOk (run perm tagH domSep (runOp perm tagH domSep s op) tl)
    exact ih _ (by rw [runOp_rate]; exact hr) (runOp_cursorsOk perm tagH domSep s op hr h)

lemma two_pow_31_xor_of_lt {v : Nat} (h : v < 2^31) : 2^31 ^^^ v = 2^31 + v := by
  apply Nat.eq_of_testBit_eq
  intro i
  rcases Nat.lt_trichotomy i 31 with hi | hi | hi
  · rw [Nat.testBit_xor, Nat.testBit_two_pow_of_ne (Nat.ne_of_gt hi),
      Nat.testBit_two_pow_add_gt hi]
    simp
  · subst hi
    rw [Nat.testBit_xor, Nat.testBit_two_pow_self, Nat.testBit_two_pow_add_eq,
      Nat.testBit_lt_two_pow h]
    rfl
  · have hle : 2^32 ≤ 2^i := Nat.pow_le_pow_right (by norm_num) (by omega)
    have h1 : (2^31 : Nat) + v < 2^i := by
      have : (2^31 : Nat) + v < 2^32 := by norm_num; omega
      omega
    have h2 : v < 2^i := by omega
    rw [Nat.testBit_xor, Nat.testBit_two_pow_of_ne (by omega),
      Nat.testBit_lt_two_pow h1, Nat.testBit_lt_two_pow h2]
    rfl

lemma two_pow_31_xor_of_ge {v : Nat} (h1 : 2^31 ≤ v) (h2 : v < 2^32) :
    2^31 ^^^ v = v - 2^31 := by
  obtain ⟨r, rfl⟩ : ∃ r, v = 2^31 + r := ⟨v - 2^31, by omega⟩
  have hr : r < 2^31 := by
    have : (2^31 : Nat) + 2^31 = 2^32 := by norm_num
    omega
  have hx : 2^31 ^^^ (2^31 + r) = 2^31 ^^^ (2^31 ^^^ r) := by
    rw [two_pow_31_xor_of_lt hr]
  rw [hx, ← Nat.xor_assoc, Nat.xor_self, Nat.zero_xor]
  omega

lemma serialize_absorb (v : Nat) : (SpongeAction.Absorb v).serialize = 2^31 ^^^ v := by
  rw [SpongeAction.serialize, Nat.one_shiftLeft]

end Lemmas

section Claims

variable {F : Type}
variable (perm : (Nat → F) → F → (Nat → F) × F)
variable (tagH : List Nat → F) (domSep : List Nat)

/-- Claim C1: for every way of splitting a total absorb count across
multiple consecutive façade absorb calls with no intervening squeeze, the
run-length-compressed action log computed at finalize is identical to the
one produced by a single absorb call of the concatenated inputs, hence
finalize passes the same serialized sequence to the tag hasher and writes
the same tag. -/
theorem C1_split_absorb_same_tag (s : Sponge F) (parts : List (List F)) :
    compress (absorbCalls perm s parts).log = compress (absorb perm s parts.flatten).log
    ∧ (compress (absorbCalls perm s parts).log).map SpongeAction.serialize ++ domSep
        = (compress (absorb perm s parts.flatten).log).map SpongeAction.serialize ++ domSep
    ∧ (finalize tagH domSep (absorbCalls perm s parts)).capacity
        = (finalize tagH domSep (absorb perm s parts.flatten)).capacity := by
  have h := compress_absorbCalls_log perm s parts
  refine ⟨h, by rw [h], ?_⟩
  show tagH ((compress (absorbCalls perm s parts).log).map SpongeAction.serialize ++ domSep)
      = tagH ((compress (absorb perm s parts.flatten).log).map SpongeAction.serialize ++ domSep)
  rw [h]

/-- Claim C2: with `rate = 2`, cursors at 0 and an empty log, absorbing
`[a, b, c]` permutes exactly once (not yet after `[a, b]`; the third
element lands in slot 0 of the freshly permuted state and leaves
`absorb_pos = 1`); squeezing 2 then permutes exactly once more; finalize
then compresses the log to `[Absorb(3), Squeeze(2)]`, serialized
`[0x80000003, 0x00000002]`, and hashes it concatenated with the domain
separator into the capacity. -/
theorem C2_rate_two_scenario (slots : Nat → F) (c0 a b c : F) :
    (absorb perm (rateTwoStart slots c0) [a, b]).permCount = 0
    ∧ (absorb perm (rateTwoStart slots c0) [a, b, c]).permCount = 1
    ∧ (absorb perm (rateTwoStart slots c0) [a, b, c]).absorb_pos = 1
    ∧ (absorb perm (rateTwoStart slots c0) [a, b, c]).rateSlots 0 = c
    ∧ (squeeze perm (absorb perm (rateTwoStart slots c0) [a, b, c]) 2).2.permCount = 2
    ∧ compress (squeeze perm (absorb perm (rateTwoStart slots c0) [a, b, c]) 2).2.log
        = [.Absorb 3, .Squeeze 2]
    ∧ (compress (squeeze perm (absorb perm (rateTwoStart slots c0) [a, b, c]) 2).2.log).map
          SpongeAction.serialize
        = [0x80000003, 0x00000002]
    ∧ (finalize tagH domSep
          (squeeze perm (absorb perm (rateTwoStart slots c0) [a, b, c]) 2).2).capacity
        = tagH ([0x80000003, 0x00000002] ++ domSep) := by
  refine ⟨rfl, rfl, rfl, rfl, rfl, rfl, ?_, ?_⟩
  · show (compress [SpongeAction.Absorb 3, SpongeAction.Squeeze 2]).map SpongeAction.serialize
        = [0x80000003, 0x00000002]
    decide
  · show tagH ((compress [SpongeAction.Absorb 3, SpongeAction.Squeeze 2]).map
        SpongeAction.serialize ++ domSep) = tagH ([0x80000003, 0x00000002] ++ domSep)
    have h : (compress [SpongeAction.Absorb 3, SpongeAction.Squeeze 2]).map
        SpongeAction.serialize = [0x80000003, 0x00000002] := by decide
    rw [h]

/-- Claim C3: after every single-element absorb, `squeeze_pos` equals
`rate`; consequently a squeeze immediately following an absorb performs
exactly one permutation between them. -/
theorem C3_absorb_forces_full_squeeze_pos (s : Sponge F) (input : F) :
    (absorb_one perm s input).squeeze_pos = (absorb_one perm s input).rate
    ∧ (squeeze_one perm (absorb_one perm s input)).2.permCount
        = (absorb_one perm s input).permCount + 1 := by
  have h : (absorb_one perm s input).squeeze_pos = (absorb_one perm s input).rate := by
    rw [absorb_one_squeeze_pos, absorb_one_rate]
  exact ⟨h, squeeze_one_permCount_of_full perm _ h⟩

/-- Claim C4: a non-empty façade absorb appends exactly one `Absorb` entry
carrying the batch length and otherwise acts as the elementwise absorbs in
input order; a positive façade squeeze appends exactly one `Squeeze` entry
and returns the values of the elementwise squeezes in call order. -/
theorem C4_batch_single_log_entry (s : Sponge F) (inputs : List F) (n : Nat)
    (hne : inputs ≠ []) (hlen : inputs.length < 2^32) (hn : 0 < n) (hn32 : n < 2^32) :
    (absorb perm s inputs).log = s.log ++ [.Absorb inputs.length]
    ∧ eraseLog (absorb perm s inputs) = eraseLog (inputs.foldl (absorb_one perm) s)
    ∧ (squeeze perm s n).2.log = s.log ++ [.Squeeze n]
    ∧ (squeeze perm s n).1 = (squeezeMany perm s n).1
    ∧ (squeeze perm s n).1.length = n
    ∧ eraseLog (squeeze perm s n).2 = eraseLog (squeezeMany perm s n).2 := by
  have hle : inputs.length ≠ 0 := fun h0 => hne (List.length_eq_zero.mp h0)
  have hmod : inputs.length % 2^32 = inputs.length := Nat.mod_eq_of_lt hlen
  have hnmod : n % 2^32 = n := Nat.mod_eq_of_lt hn32
  have hn0 : n ≠ 0 := Nat.pos_iff_ne_zero.mp hn
  refine ⟨?_, ?_, ?_, ?_, ?_, ?_⟩
  · rw [absorb_eq_setLog]
    show s.log ++ logEntryFor inputs = s.log ++ [.Absorb inputs.length]
    rw [logEntryFor, if_neg hle, hmod]
  · rw [absorb_eq_setLog]
    rfl
  · rw [squeeze_eq_of_pos perm s n hn0]
    show s.log ++ [SpongeAction.Squeeze (n % 2^32)] = s.log ++ [.Squeeze n]
    rw [hnmod]
  · rw [squeeze_eq_of_pos perm s n hn0]
  · rw [squeeze_eq_of_pos perm s n hn0]
    exact squeezeMany_length perm n s
  · rw [squeeze_eq_of_pos perm s n hn0]
    rfl

/-- Witness for C4 at a concrete input: rate 2, inputs `[5, 6]`, length 2. -/
theorem C4_batch_single_log_entry_witness :
    (absorb (F := Nat) (fun r c => (r, c)) (mkSponge 2 0) [5, 6]).log
        = (mkSponge 2 (0 : Nat)).log ++ [.Absorb 2]
    ∧ eraseLog (absorb (F := Nat) (fun r c => (r, c)) (mkSponge 2 0) [5, 6])
        = eraseLog ([5, 6].foldl (absorb_one (fun r c => (r, c))) (mkSponge 2 0))
    ∧ (squeeze (F := Nat) (fun r c => (r, c)) (mkSponge 2 0) 2).2.log
        = (mkSponge 2 (0 : Nat)).log ++ [.Squeeze 2]
    ∧ (squeeze (F := Nat) (fun r c => (r, c)) (mkSponge 2 0) 2).1
        = (squeezeMany (fun r c => (r, c)) (mkSponge 2 0) 2).1
    ∧ (squeeze (F := Nat) (fun r c => (r, c)) (mkSponge 2 0) 2).1.length = 2
    ∧ eraseLog (squeeze (F := Nat) (fun r c => (r, c)) (mkSponge 2 0) 2).2
        = eraseLog (squeezeMany (fun r c => (r, c)) (mkSponge 2 0) 2).2 :=
  C4_batch_single_log_entry (fun r c => (r, c)) (mkSponge 2 0) [5, 6] 2
    (by decide) (by decide) (by decide) (by decide)

/-- Claim C5: absorbing an empty batch or squeezing length 0 is a complete
no-op: the state (cursors, log, slots, capacity, permutation count) is
unchanged and the squeeze returns the empty sequence. -/
theorem C5_zero_length_noop (s : Sponge F) :
    absorb perm s [] = s ∧ (squeeze perm s 0).1 = [] ∧ (squeeze perm s 0).2 = s :=
  ⟨rfl, rfl, rfl⟩

/-- Claim C6: from a state with both cursors at 0 and a positive rate,
every sequence of public calls keeps `absorb_pos ≤ rate` and
`squeeze_pos ≤ rate` (the lower bounds are inherent to `Nat`). -/
theorem C6_cursor_bounds (s : Sponge F) (ops : List (SpongeOp F))
    (hr : 0 < s.rate) (ha : s.absorb_pos = 0) (hq : s.squeeze_pos = 0) :
    (run perm tagH domSep s ops).absorb_pos ≤ (run perm tagH domSep s ops).rate
    ∧ (run perm tagH domSep s ops).squeeze_pos ≤ (run perm tagH domSep s ops).rate :=
  run_cursorsOk perm tagH domSep ops s hr ⟨by omega, by omega⟩

/-- Witness for C6 at a concrete input: rate 2, absorb 3, squeeze 2,
finalize. -/
theorem C6_cursor_bounds_witness :
    (run (F := Nat) (fun r c => (r, c)) (fun l => l.length) [7] (mkSponge 2 0)
        [.absorbOp [1, 2, 3], .squeezeOp 2, .finalizeOp]).absorb_pos
      ≤ (run (F := Nat) (fun r c => (r, c)) (fun l => l.length) [7] (mkSponge 2 0)
        [.absorbOp [1, 2, 3], .squeezeOp 2, .finalizeOp]).rate
    ∧ (run (F := Nat) (fun r c => (r, c)) (fun l => l.length) [7] (mkSponge 2 0)
        [.absorbOp [1, 2, 3], .squeezeOp 2, .finalizeOp]).squeeze_pos
      ≤ (run (F := Nat) (fun r c => (r, c)) (fun l => l.length) [7] (mkSponge 2 0)
        [.absorbOp [1, 2, 3], .squeezeOp 2, .finalizeOp]).rate :=
  C6_cursor_bounds (fun r c => (r, c)) (fun l => l.length) [7] (mkSponge 2 0)
    [.absorbOp [1, 2, 3], .squeezeOp 2, .finalizeOp] (by decide) rfl rfl

/-- Claim C7: for every count below `2^31`, decoding the top bit as the
direction and the low 31 bits as the magnitude recovers the serialized
`SpongeAction`; `Absorb` serializes with the top bit set, `Squeeze` with
the top bit clear. -/
theorem C7_serialize_roundtrip (v : Nat) (h : v < 2^31) :
    decodeEntry (SpongeAction.Absorb v).serialize = .Absorb v
    ∧ decodeEntry (SpongeAction.Squeeze v).serialize = .Squeeze v
    ∧ (SpongeAction.Absorb v).serialize.testBit 31 = true
    ∧ (SpongeAction.Squeeze v).serialize.testBit 31 = false := by
  have habs : (SpongeAction.Absorb v).serialize = 2^31 + v := by
    rw [serialize_absorb, two_pow_31_xor_of_lt h]
  have hsq : (SpongeAction.Squeeze v).serialize = v := rfl
  have hbit : ((2:Nat)^31 + v).testBit 31 = true := by
    rw [Nat.testBit_two_pow_add_eq, Nat.testBit_lt_two_pow h]
    rfl
  have hmod : ((2:Nat)^31 + v) % 2^31 = v := by omega
  refine ⟨?_, ?_, ?_, ?_⟩
  · rw [habs, decodeEntry, if_pos hbit, hmod]
  · rw [hsq, decodeEntry, if_neg (by rw [Nat.testBit_lt_two_pow h]; simp)]
    rw [Nat.mod_eq_of_lt h]
  · rw [habs, hbit]
  · rw [hsq, Nat.testBit_lt_two_pow h]

/-- Witness for C7 at the concrete count 5. -/
theorem C7_serialize_roundtrip_witness :
    decodeEntry (SpongeAction.Absorb 5).serialize = .Absorb 5
    ∧ decodeEntry (SpongeAction.Squeeze 5).serialize = .Squeeze 5
    ∧ (SpongeAction.Absorb 5).serialize.testBit 31 = true
    ∧ (SpongeAction.Squeeze 5).serialize.testBit 31 = false :=
  C7_serialize_roundtrip 5 (by decide)

/-- Claim C8: finalize reads the log without modifying it, leaves both
cursors, the rate and every rate slot untouched, and its only state effect
is writing the derived tag into the capacity. -/
theorem C8_finalize_frame (s : Sponge F) :
    (finalize tagH domSep s).log = s.log
    ∧ (finalize tagH domSep s).absorb_pos = s.absorb_pos
    ∧ (finalize tagH domSep s).squeeze_pos = s.squeeze_pos
    ∧ (finalize tagH domSep s).rate = s.rate
    ∧ (finalize tagH domSep s).rateSlots = s.rateSlots
    ∧ (finalize tagH domSep s).permCount = s.permCount
    ∧ (finalize tagH domSep s).capacity
        = tagH ((compress s.log).map SpongeAction.serialize ++ domSep) :=
  ⟨rfl, rfl, rfl, rfl, rfl, rfl, rfl⟩

/-- Counterexample for C9: coalescing two `Absorb(2^31)` entries during
finalize does not fail fast; the running u32 sum wraps silently to
`Absorb(0)`, whose serialization is identical to that of an honest
`Absorb(0)` log, so a corrupted tag is produced without any reported
error. -/
theorem C9_no_overflow_guard_counterexample :
    compress [.Absorb (2^31), .Absorb (2^31)] = [.Absorb 0]
    ∧ (compress [.Absorb (2^31), .Absorb (2^31)]).map SpongeAction.serialize
        = (compress [.Absorb 0]).map SpongeAction.serialize :=
  ⟨by decide, by decide⟩

/-- Claim C9 (amended): when two consecutive same-direction log entries are
coalesced during finalize, the implementation performs no overflow check:
the running sum wraps modulo `2^32` (u32 wrapping semantics) and finalize
silently hashes the wrapped count into the tag. -/
theorem C9_coalesce_wraps_silently (s : Sponge F) (a b : Nat) :
    compress [.Absorb a, .Absorb b] = [.Absorb ((a + b) % 2^32)]
    ∧ compress [.Squeeze a, .Squeeze b] = [.Squeeze ((a + b) % 2^32)]
    ∧ (finalize tagH domSep (setLog s [.Absorb a, .Absorb b])).capacity
        = tagH ([SpongeAction.serialize (.Absorb ((a + b) % 2^32))] ++ domSep) :=
  ⟨rfl, rfl, rfl⟩

/-- Claim C10: for every count with the top bit set (`2^31 ≤ v < 2^32`),
`Absorb(v)` serializes to `v - 2^31` (the xor clears the bit), colliding
with `Squeeze(v - 2^31)`: the direction bit is unrecoverable for counts of
`2^31` and above. -/
theorem C10_high_count_collision (v : Nat) (h1 : 2^31 ≤ v) (h2 : v < 2^32) :
    (SpongeAction.Absorb v).serialize = v - 2^31
    ∧ (SpongeAction.Absorb v).serialize = (SpongeAction.Squeeze (v - 2^31)).serialize := by
  have habs : (SpongeAction.Absorb v).serialize = v - 2^31 := by
    rw [serialize_absorb, two_pow_31_xor_of_ge h1 h2]
  exact ⟨habs, habs⟩

/-- Witness for C10 at the concrete count `2^31 + 5`. -/
theorem C10_high_count_collision_witness :
    (SpongeAction.Absorb (2^31 + 5)).serialize = 2^31 + 5 - 2^31
    ∧ (SpongeAction.Absorb (2^31 + 5)).serialize
        = (SpongeAction.Squeeze (2^31 + 5 - 2^31)).serialize :=
  C10_high_count_collision (2^31 + 5) (by decide) (by decide)

end Claims

end ZkSponge
